import Mathlib

/-!
Verification of the visgeom semi-global stereo matching engine
(`include/reconstruction/eucm_stereo.h`).

The development shallowly embeds the data model and operations of
`StereoParameters` and `EnhancedStereo`.  Functions whose bodies appear in
the header (`StereoParameters::init`, the coordinate transforms, the
orchestration of `setTransformation` / `init` / `initAfterTransformation`)
are translated directly from the source.  Member functions whose bodies
live in a translation unit not present in the sources
(`computeCost`, `computeDynamicStep`, `upsampleDisparity`,
`computeEpipole`, ...) are modelled from the specification; each such
definition carries a doc comment starting with `Modelled from the spec:`.

Machine integers (`int`) are modelled as `Int`; C++ integer division
truncates toward zero, which is `Int.tdiv`.  8-bit pixels are modelled as
`Nat` values.
-/

namespace Visgeom

/-- The configuration structure `StereoParameters` from
`eucm_stereo.h`.  Base fields carry the C++ default initializers; the
derived fields are uninitialized `int`s in C++ and are modelled as 0
(they are never read before `init` assigns them). -/
structure StereoParameters where
  dispMax : Int := 48
  blockSize : Int := 3
  uMargin : Int := 0
  vMargin : Int := 0
  width : Int := -1
  height : Int := -1
  lambdaStep : Int := 5
  lambdaJump : Int := 32
  imageWidth : Int := 0
  imageHeight : Int := 0
  u0 : Int := 0
  v0 : Int := 0
  uMax : Int := 0
  vMax : Int := 0
  smallWidth : Int := 0
  smallHeight : Int := 0
  halfBlockSize : Int := 0
  deriving DecidableEq

namespace StereoParameters

/-- `uSmall`: image to small (reduced) disparity-grid coordinate,
`(u - u0) / blockSize` with C++ truncated division. -/
def uSmall (p : StereoParameters) (u : Int) : Int := (u - p.u0).tdiv p.blockSize

/-- `vSmall`: image to small disparity-grid coordinate. -/
def vSmall (p : StereoParameters) (v : Int) : Int := (v - p.v0).tdiv p.blockSize

/-- `uBig`: small-grid to image coordinate,
`u * blockSize + halfBlockSize + u0`. -/
def uBig (p : StereoParameters) (u : Int) : Int :=
  u * p.blockSize + p.halfBlockSize + p.u0

/-- `vBig`: small-grid to image coordinate. -/
def vBig (p : StereoParameters) (v : Int) : Int :=
  v * p.blockSize + p.halfBlockSize + p.v0

/-- `StereoParameters::init` translated statement by statement from the
header: each `let` mirrors one member assignment, so that `uSmall`/`vSmall`
used for `smallWidth`/`smallHeight` see the freshly assigned `u0`, `v0`,
`uMax`, `vMax` exactly as in the C++ sequencing. -/
def init (p : StereoParameters) : StereoParameters :=
  let p1 := { p with u0 := p.uMargin + p.dispMax + p.blockSize, v0 := p.vMargin }
  let p2 := { p1 with uMax :=
    if p1.width > 0 then p1.u0 + p1.width
    else p1.imageWidth - p1.uMargin - p1.blockSize }
  let p3 := { p2 with vMax :=
    if p2.height > 0 then p2.v0 + p2.height
    else p2.imageHeight - p2.vMargin - p2.blockSize }
  let p4 := { p3 with smallWidth := p3.uSmall p3.uMax + 1 }
  let p5 := { p4 with smallHeight := p4.vSmall p4.vMax + 1 }
  { p5 with halfBlockSize := p5.blockSize.tdiv 2 }

end StereoParameters

/-- A concrete misconfigured parameter set: `dispMax = 0` violates the
positivity requirement claimed by the specification. -/
def badParams : StereoParameters :=
  { dispMax := 0, blockSize := 3, uMargin := 1, vMargin := 2,
    width := 5, height := 4, imageWidth := 100, imageHeight := 80 }

end Visgeom

open Visgeom

/-- C5: after `StereoParameters::init()` runs, every derived field is the
stated function of the base fields alone (`u0 = uMargin + dispMax +
blockSize`, `v0 = vMargin`, `uMax`/`vMax` by the width/height case split,
`smallWidth = uSmall uMax + 1`, `smallHeight = vSmall vMax + 1`,
`halfBlockSize = blockSize / 2`), and the base fields are preserved, so
re-running `init` after any base-field mutation restores consistency. -/
theorem c5_init_derived_fields (p : StereoParameters) (hb : 0 < p.blockSize) :
    p.init.dispMax = p.dispMax ∧
    p.init.blockSize = p.blockSize ∧
    p.init.uMargin = p.uMargin ∧
    p.init.vMargin = p.vMargin ∧
    p.init.width = p.width ∧
    p.init.height = p.height ∧
    p.init.lambdaStep = p.lambdaStep ∧
    p.init.lambdaJump = p.lambdaJump ∧
    p.init.imageWidth = p.imageWidth ∧
    p.init.imageHeight = p.imageHeight ∧
    p.init.u0 = p.uMargin + p.dispMax + p.blockSize ∧
    p.init.v0 = p.vMargin ∧
    p.init.uMax = (if p.width > 0 then p.uMargin + p.dispMax + p.blockSize + p.width
      else p.imageWidth - p.uMargin - p.blockSize) ∧
    p.init.vMax = (if p.height > 0 then p.vMargin + p.height
      else p.imageHeight - p.vMargin - p.blockSize) ∧
    p.init.smallWidth = p.init.uSmall p.init.uMax + 1 ∧
    p.init.smallHeight = p.init.vSmall p.init.vMax + 1 ∧
    p.init.halfBlockSize = p.blockSize.tdiv 2 := by
  simp [StereoParameters.init, StereoParameters.uSmall, StereoParameters.vSmall]

/-- Witness for C5 at the concrete configuration `badParams`
(whose `blockSize = 3` is positive). -/
theorem c5_init_derived_fields_witness :
    0 < badParams.blockSize ∧
    (badParams.init.u0 = badParams.uMargin + badParams.dispMax + badParams.blockSize ∧
     badParams.init.smallWidth = badParams.init.uSmall badParams.init.uMax + 1 ∧
     badParams.init.halfBlockSize = badParams.blockSize.tdiv 2) :=
  ⟨by decide,
   (c5_init_derived_fields badParams (by decide)).2.2.2.2.2.2.2.2.2.2.1,
   (c5_init_derived_fields badParams (by decide)).2.2.2.2.2.2.2.2.2.2.2.2.2.2.1,
   (c5_init_derived_fields badParams (by decide)).2.2.2.2.2.2.2.2.2.2.2.2.2.2.2.2⟩

/-- C6 counterexample: the claim says a non-positive `dispMax` is surfaced
as a fatal error at configuration/initialization time.  The source of
`StereoParameters::init` contains no validation and no error path at all:
on `badParams` (whose `dispMax = 0` violates the stated precondition)
`init` completes normally and fills in the derived fields exactly as for a
valid configuration — no failure is ever raised. -/
theorem c6_no_validation_counterexample :
    badParams.dispMax ≤ 0 ∧
    badParams.init =
      { dispMax := 0, blockSize := 3, uMargin := 1, vMargin := 2,
        width := 5, height := 4, imageWidth := 100, imageHeight := 80,
        u0 := 4, v0 := 2, uMax := 9, vMax := 6,
        smallWidth := 2, smallHeight := 2, halfBlockSize := 1 } := by
  decide

/-- C6 amended: `StereoParameters::init` performs no validation; even with
a non-positive `dispMax` it completes normally and computes the derived
fields by the same formulas as for a valid configuration, so
misconfiguration is never surfaced at initialization time. -/
theorem c6_init_never_rejects (p : StereoParameters) (hbad : p.dispMax ≤ 0) :
    p.init.u0 = p.uMargin + p.dispMax + p.blockSize ∧
    p.init.v0 = p.vMargin ∧
    p.init.halfBlockSize = p.blockSize.tdiv 2 ∧
    p.init.dispMax = p.dispMax := by
  simp [StereoParameters.init]

/-- Witness for the amended C6 at the concrete misconfiguration
`badParams`. -/
theorem c6_init_never_rejects_witness :
    badParams.dispMax ≤ 0 ∧
    (badParams.init.u0 = badParams.uMargin + badParams.dispMax + badParams.blockSize ∧
     badParams.init.v0 = badParams.vMargin ∧
     badParams.init.halfBlockSize = badParams.blockSize.tdiv 2 ∧
     badParams.init.dispMax = badParams.dispMax) :=
  ⟨by decide, c6_init_never_rejects badParams (by decide)⟩

/-- If `0 ≤ h < b` and `0 ≤ u` then truncated division gives
`(u * b + h) / b = u`; this is the arithmetic core of the coordinate
round-trip. -/
theorem tdiv_mul_add_lt {u b h : Int} (hu : 0 ≤ u) (hb : 0 < b)
    (h0 : 0 ≤ h) (hlt : h < b) : (u * b + h).tdiv b = u := by
  have hnum : 0 ≤ u * b + h := by positivity
  rw [Int.tdiv_eq_ediv hnum (le_of_lt hb), add_comm,
    Int.add_mul_ediv_right h u (ne_of_gt hb),
    Int.ediv_eq_zero_of_lt h0 hlt, zero_add]

/-- C10: for an initialized `StereoParameters` with positive `blockSize`
and non-negative reduced-grid coordinates, the coordinate transforms
round-trip: `uSmall (uBig u) = u` and `vSmall (vBig v) = v`, because
`halfBlockSize = blockSize / 2 < blockSize`. -/
theorem c10_coordinate_round_trip (p : StereoParameters) (hb : 0 < p.blockSize)
    (u v : Int) (hu : 0 ≤ u) (hv : 0 ≤ v) :
    p.init.uSmall (p.init.uBig u) = u ∧ p.init.vSmall (p.init.vBig v) = v := by
  have hbb : p.init.blockSize = p.blockSize := by
    simp [StereoParameters.init]
  have hhalf : p.init.halfBlockSize = p.blockSize.tdiv 2 := by
    simp [StereoParameters.init]
  have h0 : 0 ≤ p.blockSize.tdiv 2 := Int.tdiv_nonneg (le_of_lt hb) (by norm_num)
  have hlt : p.blockSize.tdiv 2 < p.blockSize := by
    rw [Int.tdiv_eq_ediv (le_of_lt hb) (by norm_num)]
    exact Int.ediv_lt_of_lt_mul (by norm_num) (by linarith)
  constructor
  · show (p.init.uBig u - p.init.u0).tdiv p.init.blockSize = u
    rw [StereoParameters.uBig, add_sub_cancel_right, hbb, hhalf]
    exact tdiv_mul_add_lt hu hb h0 hlt
  · show (p.init.vBig v - p.init.v0).tdiv p.init.blockSize = v
    rw [StereoParameters.vBig, add_sub_cancel_right, hbb, hhalf]
    exact tdiv_mul_add_lt hv hb h0 hlt

/-- Witness for C10 at `badParams` and coordinates `(2, 1)`. -/
theorem c10_coordinate_round_trip_witness :
    0 < badParams.blockSize ∧ (0:Int) ≤ 2 ∧ (0:Int) ≤ 1 ∧
    (badParams.init.uSmall (badParams.init.uBig 2) = 2 ∧
     badParams.init.vSmall (badParams.init.vBig 1) = 1) :=
  ⟨by decide, by decide, by decide,
   c10_coordinate_round_trip badParams (by decide) 2 1 (by decide) (by decide)⟩

namespace Visgeom

/-- The external geometry computations consumed by `EnhancedStereo`.
The camera model and the actual buffer contents are external collaborators
(spec section 6); the engine only decides which of them to invoke and when.
`reconstructF` depends only on the camera and the parameters, which are
fixed at construction; the other four take the current pose. -/
structure GeometryFns (P R E V C : Type) where
  reconstructF : R
  rotateF : P → R → R
  epipoleF : P → E
  pinfF : P → R → V
  curvesF : P → E → V → C

/-- The pose and the cached geometry buffers of an `EnhancedStereo`
instance, together with one recompute counter per buffer (the spec's
"verifiable via a recompute counter"). -/
structure StereoCaches (P R E V C : Type) where
  transform12 : P
  reconstVec : R
  reconstRotVec : R
  epipole : E
  pinfVec : V
  epipolarVec : C
  nReconstructed : Nat
  nRotated : Nat
  nEpipole : Nat
  nPinf : Nat
  nCurves : Nat

variable {P R E V C : Type}

/-- Modelled from the spec: the body of
`EnhancedStereo::computeReconstructed` is not among the sources; per the
header comment it computes `reconstVec`, the reconstruction of every pixel
of the first image, which depends only on `cam1` (spec: pose-independent,
computed once). -/
def computeReconstructed (g : GeometryFns P R E V C) (s : StereoCaches P R E V C) :
    StereoCaches P R E V C :=
  { s with reconstVec := g.reconstructF, nReconstructed := s.nReconstructed + 1 }

/-- Modelled from the spec: the body of `EnhancedStereo::computeRotated`
is not among the sources; per the header comment it computes
`reconstRotVec`, `reconstVec` rotated into the second frame under the
current pose. -/
def computeRotated (g : GeometryFns P R E V C) (s : StereoCaches P R E V C) :
    StereoCaches P R E V C :=
  { s with reconstRotVec := g.rotateF s.transform12 s.reconstVec,
           nRotated := s.nRotated + 1 }

/-- Modelled from the spec: the body of `EnhancedStereo::computeEpipole`
is not among the sources; per the header comment it computes the
projection of the first camera's center onto the second camera, a function
of the current pose. -/
def cacheEpipole (g : GeometryFns P R E V C) (s : StereoCaches P R E V C) :
    StereoCaches P R E V C :=
  { s with epipole := g.epipoleF s.transform12, nEpipole := s.nEpipole + 1 }

/-- Modelled from the spec: the body of `EnhancedStereo::computePinf` is
not among the sources; per the header comment it computes `pinfVec`, the
projections of the reconstructed points onto the second image as if they
were at infinity (a function of the pose and the rotated rays). -/
def computePinf (g : GeometryFns P R E V C) (s : StereoCaches P R E V C) :
    StereoCaches P R E V C :=
  { s with pinfVec := g.pinfF s.transform12 s.reconstRotVec,
           nPinf := s.nPinf + 1 }

/-- Modelled from the spec: the body of
`EnhancedStereo::computeEpipolarCurves` is not among the sources; per the
spec it fits the per-cell polynomial curves from the epipole and the
at-infinity projections. -/
def computeEpipolarCurves (g : GeometryFns P R E V C) (s : StereoCaches P R E V C) :
    StereoCaches P R E V C :=
  { s with epipolarVec := g.curvesF s.transform12 s.epipole s.pinfVec,
           nCurves := s.nCurves + 1 }

/-- `EnhancedStereo::initAfterTransformation`, translated from the header:
`computeEpipole(); computeRotated(); computePinf(); computeEpipolarCurves();`
— only the pose-dependent data are recomputed. -/
def initAfterTransformation (g : GeometryFns P R E V C)
    (s : StereoCaches P R E V C) : StereoCaches P R E V C :=
  computeEpipolarCurves g (computePinf g (computeRotated g (cacheEpipole g s)))

/-- `EnhancedStereo::setTransformation`, translated from the header:
assign `Transform12 = T12` and call `initAfterTransformation()`. -/
def setTransformation (g : GeometryFns P R E V C) (T12 : P)
    (s : StereoCaches P R E V C) : StereoCaches P R E V C :=
  initAfterTransformation g { s with transform12 := T12 }

/-- `EnhancedStereo::init`, translated from the header:
`createBuffer(); computeReconstructed(); initAfterTransformation();`
(`createBuffer` allocates the cost/tableau images and touches none of the
geometry buffers modelled here). -/
def engineInit (g : GeometryFns P R E V C) (s : StereoCaches P R E V C) :
    StereoCaches P R E V C :=
  initAfterTransformation g (computeReconstructed g s)

end Visgeom

/-- C1: calling only the pose setter `setTransformation` recomputes
exactly the pose-dependent buffers — the epipole, the rotated ray set
`reconstRotVec`, the at-infinity projections `pinfVec` and the epipolar
curve coefficients `epipolarVec` (each counter increments by one and each
buffer is rebuilt from the new pose) — while the pose-independent
per-pixel ray set `reconstVec` is unchanged and `computeReconstructed` is
not re-invoked (its counter is unchanged). -/
theorem c1_pose_change_isolation {P R E V C : Type}
    (g : GeometryFns P R E V C) (T12 : P) (s : StereoCaches P R E V C) :
    (setTransformation g T12 s).reconstVec = s.reconstVec ∧
    (setTransformation g T12 s).nReconstructed = s.nReconstructed ∧
    (setTransformation g T12 s).nEpipole = s.nEpipole + 1 ∧
    (setTransformation g T12 s).nRotated = s.nRotated + 1 ∧
    (setTransformation g T12 s).nPinf = s.nPinf + 1 ∧
    (setTransformation g T12 s).nCurves = s.nCurves + 1 ∧
    (setTransformation g T12 s).transform12 = T12 ∧
    (setTransformation g T12 s).epipole = g.epipoleF T12 ∧
    (setTransformation g T12 s).reconstRotVec = g.rotateF T12 s.reconstVec ∧
    (setTransformation g T12 s).pinfVec
      = g.pinfF T12 (g.rotateF T12 s.reconstVec) ∧
    (setTransformation g T12 s).epipolarVec
      = g.curvesF T12 (g.epipoleF T12)
          (g.pinfF T12 (g.rotateF T12 s.reconstVec)) := by
  refine ⟨rfl, rfl, rfl, rfl, rfl, rfl, rfl, rfl, rfl, rfl, rfl⟩

namespace Visgeom

/-- Modelled from the spec: the DP smoothness penalty of section 4.3 —
`0` when `d = d'`, the 1-step penalty `lS` (`lambdaStep`) when
`|d - d'| = 1`, the jump penalty `lJ` (`lambdaJump`) when `|d - d'| > 1`. -/
def penalty (lS lJ : Int) (d dp : Nat) : Int :=
  if dp = d then 0 else if dp + 1 = d ∨ d + 1 = dp then lS else lJ

/-- Running minimum of `f` over an index list, computed by a left-to-right
scan the way the C++ inner loop accumulates it (the `[]` value is junk and
never used: the disparity range is nonempty). -/
def foldMin (f : Nat → Int) : List Nat → Int
  | [] => 0
  | [i] => f i
  | i :: j :: t => min (f i) (foldMin f (j :: t))

/-- The floor term `min_d' in[p][d']` of the DP recurrence, over the
disparity range `[0, D)`. -/
def minAll (D : Nat) (inCost : Nat → Int) : Int := foldMin inCost (List.range D)

/-- The penalized minimum `min_d' (in[p][d'] + penalty d d')` of the DP
recurrence, over the disparity range `[0, D)`. -/
def minPen (lS lJ : Int) (D : Nat) (inCost : Nat → Int) (d : Nat) : Int :=
  foldMin (fun dp => inCost dp + penalty lS lJ d dp) (List.range D)

/-- Modelled from the spec: the body of
`EnhancedStereo::computeDynamicStep` is not among the sources; per spec
section 4.3 the step computes, for every disparity index,
`out[d] = cost[d] + min_dp (in[dp] + penalty d dp) - min_dp in[dp]`. -/
def computeDynamicStep (lS lJ : Int) (D : Nat) (inCost cost : Nat → Int)
    (d : Nat) : Int :=
  cost d + minPen lS lJ D inCost d - minAll D inCost

theorem foldMin_le (f : Nat → Int) :
    ∀ (l : List Nat), ∀ i ∈ l, foldMin f l ≤ f i := by
  intro l
  induction l with
  | nil => intro i h; cases h
  | cons a t ih =>
    intro i h
    cases t with
    | nil =>
      rcases List.mem_cons.mp h with h1 | h1
      · subst h1; exact le_of_eq rfl
      · cases h1
    | cons b t2 =>
      rcases List.mem_cons.mp h with h1 | h1
      · subst h1; exact min_le_left _ _
      · exact le_trans (min_le_right _ _) (ih i h1)

theorem foldMin_mem (f : Nat → Int) :
    ∀ (l : List Nat), l ≠ [] → ∃ i ∈ l, foldMin f l = f i := by
  intro l
  induction l with
  | nil => intro h; exact absurd rfl h
  | cons a t ih =>
    intro _
    cases t with
    | nil => exact ⟨a, List.mem_cons_self a [], rfl⟩
    | cons b t2 =>
      rcases ih (by simp) with ⟨i, hmem, heq⟩
      rcases le_total (f a) (foldMin f (b :: t2)) with hle | hle
      · exact ⟨a, List.mem_cons_self _ _, by
          show min (f a) (foldMin f (b :: t2)) = f a
          exact min_eq_left hle⟩
      · exact ⟨i, List.mem_cons_of_mem a hmem, by
          show min (f a) (foldMin f (b :: t2)) = f i
          rw [min_eq_right hle, heq]⟩

/-- The operational running minimum over `[0, D)` agrees with the lattice
infimum over `Finset.range D`. -/
theorem foldMin_range_eq_inf' (f : Nat → Int) (D : Nat)
    (hD : (Finset.range D).Nonempty) :
    foldMin f (List.range D) = (Finset.range D).inf' hD f := by
  have hne : List.range D ≠ [] := by
    rcases hD with ⟨x, hx⟩
    intro h
    have hx2 : x ∈ List.range D := List.mem_range.mpr (Finset.mem_range.mp hx)
    rw [h] at hx2
    cases hx2
  apply le_antisymm
  · apply Finset.le_inf'
    intro b hb
    exact foldMin_le f (List.range D) b (List.mem_range.mpr (Finset.mem_range.mp hb))
  · rcases foldMin_mem f (List.range D) hne with ⟨i, hmem, heq⟩
    rw [heq]
    exact Finset.inf'_le f (Finset.mem_range.mpr (List.mem_range.mp hmem))

/-- The branch structure of `penalty` matches the absolute-difference
description `0 / lS / lJ` according to `|d - d'|`. -/
theorem penalty_natAbs (lS lJ : Int) (d dp : Nat) :
    penalty lS lJ d dp =
      (if ((d : Int) - dp).natAbs = 0 then 0
       else if ((d : Int) - dp).natAbs = 1 then lS else lJ) := by
  simp only [penalty]
  split_ifs <;> omega

end Visgeom

/-- C2: for every disparity index `d` in `[0, dispMax)` the DP step
computes `out[d] = cost[d] + min_dp (in[dp] + penalty d dp) - min_dp
in[dp]` where both minima range over `[0, dispMax)` and the penalty is `0`
for `|d - dp| = 0`, `lambdaStep` for `|d - dp| = 1` and `lambdaJump` for
`|d - dp| > 1`. -/
theorem c2_dynamic_step_recurrence (lS lJ : Int) (D : Nat)
    (hD : (Finset.range D).Nonempty) (inCost cost : Nat → Int)
    (d : Nat) (hd : d < D) :
    computeDynamicStep lS lJ D inCost cost d =
      cost d + (Finset.range D).inf' hD (fun dp => inCost dp +
        (if ((d : Int) - dp).natAbs = 0 then 0
         else if ((d : Int) - dp).natAbs = 1 then lS else lJ))
      - (Finset.range D).inf' hD inCost := by
  have hfun : (fun dp => inCost dp + penalty lS lJ d dp) =
      (fun dp => inCost dp +
        (if ((d : Int) - dp).natAbs = 0 then 0
         else if ((d : Int) - dp).natAbs = 1 then lS else lJ)) :=
    funext fun dp => by rw [penalty_natAbs]
  unfold computeDynamicStep minPen minAll
  rw [hfun, foldMin_range_eq_inf' _ D hD, foldMin_range_eq_inf' _ D hD]

/-- Witness for C2 with a two-disparity range, `lambdaStep = 5`,
`lambdaJump = 32`, at `d = 0`. -/
theorem c2_dynamic_step_recurrence_witness :
    (0 : Nat) < 2 ∧
    computeDynamicStep 5 32 2 (fun dp => if dp = 0 then 7 else 3)
        (fun _ => 10) 0 =
      10 + (Finset.range 2).inf' (by decide)
        (fun dp => (if dp = 0 then (7 : Int) else 3) +
          (if ((0 : Int) - dp).natAbs = 0 then 0
           else if ((0 : Int) - dp).natAbs = 1 then 5 else 32))
      - (Finset.range 2).inf' (by decide) (fun dp => if dp = 0 then 7 else 3) :=
  ⟨by decide,
   c2_dynamic_step_recurrence 5 32 2 (by decide)
     (fun dp => if dp = 0 then 7 else 3) (fun _ => 10) 0 (by decide)⟩

namespace Visgeom

/-- The DP step without the floor subtraction: the plain recurrence
`out[d] = cost[d] + min_dp (in[dp] + penalty d dp)` used as the reference
in claim C8. -/
def computeDynamicStepNoSub (lS lJ : Int) (D : Nat) (inCost cost : Nat → Int)
    (d : Nat) : Int :=
  cost d + minPen lS lJ D inCost d

/-- Modelled from the spec: one directional scanline pass of
`computeDynamicProgramming` (whose body is not among the sources).  Cells
are visited strictly in scan order; the first cell's tableau column is its
raw cost, each later cell is obtained from the previous one by
`computeDynamicStep`. -/
def dpLine (lS lJ : Int) (D : Nat) (cost : Nat → Nat → Int) : Nat → Nat → Int
  | 0 => cost 0
  | i + 1 => computeDynamicStep lS lJ D (dpLine lS lJ D cost i) (cost (i + 1))

/-- The same scanline pass built on the recurrence without the floor
subtraction. -/
def dpLineNoSub (lS lJ : Int) (D : Nat) (cost : Nat → Nat → Int) :
    Nat → Nat → Int
  | 0 => cost 0
  | i + 1 => computeDynamicStepNoSub lS lJ D (dpLineNoSub lS lJ D cost i) (cost (i + 1))

/-- Index of the minimal value of `f` on an index list, ties broken by the
smallest index (the spec's nearer-depth convention); `0` on the empty
list, never used since the disparity range is nonempty. -/
def argminList (f : Nat → Int) : List Nat → Nat
  | [] => 0
  | [i] => i
  | i :: j :: t =>
    if f i ≤ f (argminList f (j :: t)) then i else argminList f (j :: t)

/-- Left-to-right tableau (`tableauLeft`): DP pass along each row. -/
def tableauLeft (lS lJ : Int) (D : Nat) (cost : Nat → Nat → Nat → Int)
    (r c d : Nat) : Int :=
  dpLine lS lJ D (fun i => cost r i) c d

/-- Right-to-left tableau (`tableauRight`): DP pass along each reversed
row of a `w`-cell grid. -/
def tableauRight (lS lJ : Int) (D w : Nat) (cost : Nat → Nat → Nat → Int)
    (r c d : Nat) : Int :=
  dpLine lS lJ D (fun i => cost r (w - 1 - i)) (w - 1 - c) d

/-- Top-to-bottom tableau (`tableauTop`): DP pass along each column. -/
def tableauTop (lS lJ : Int) (D : Nat) (cost : Nat → Nat → Nat → Int)
    (r c d : Nat) : Int :=
  dpLine lS lJ D (fun i => cost i c) r d

/-- Bottom-to-top tableau (`tableauBottom`): DP pass along each reversed
column of an `h`-cell grid. -/
def tableauBottom (lS lJ : Int) (D h : Nat) (cost : Nat → Nat → Nat → Int)
    (r c d : Nat) : Int :=
  dpLine lS lJ D (fun i => cost (h - 1 - i) c) (h - 1 - r) d

/-- Modelled from the spec: the per-cell aggregated score of
`reconstructDisparity` (body not among the sources).  Each directional
recurrence folds the direct cost in once, so the combination adds the four
tableaus and subtracts the direct cost three times, counting it exactly
once (the convention suggested in spec section 9). -/
def aggScore (lS lJ : Int) (D h w : Nat) (cost : Nat → Nat → Nat → Int)
    (r c d : Nat) : Int :=
  tableauLeft lS lJ D cost r c d + tableauRight lS lJ D w cost r c d +
  tableauTop lS lJ D cost r c d + tableauBottom lS lJ D h cost r c d -
  3 * cost r c d

/-- The aggregated score built from the no-subtraction tableaus. -/
def aggScoreNoSub (lS lJ : Int) (D h w : Nat) (cost : Nat → Nat → Nat → Int)
    (r c d : Nat) : Int :=
  dpLineNoSub lS lJ D (fun i => cost r i) c d +
  dpLineNoSub lS lJ D (fun i => cost r (w - 1 - i)) (w - 1 - c) d +
  dpLineNoSub lS lJ D (fun i => cost i c) r d +
  dpLineNoSub lS lJ D (fun i => cost (h - 1 - i) c) (h - 1 - r) d -
  3 * cost r c d

/-- Modelled from the spec: `reconstructDisparity` — per cell, the
disparity index minimizing the aggregated score, ties broken by the
smallest index. -/
def reconstructDisparity (lS lJ : Int) (D h w : Nat)
    (cost : Nat → Nat → Nat → Int) (r c : Nat) : Nat :=
  argminList (fun d => aggScore lS lJ D h w cost r c d) (List.range D)

/-- The winner extraction run on the no-subtraction recurrence. -/
def reconstructDisparityNoSub (lS lJ : Int) (D h w : Nat)
    (cost : Nat → Nat → Nat → Int) (r c : Nat) : Nat :=
  argminList (fun d => aggScoreNoSub lS lJ D h w cost r c d) (List.range D)

theorem foldMin_sub (g : Nat → Int) (k : Int) :
    ∀ l : List Nat, l ≠ [] → foldMin (fun i => g i - k) l = foldMin g l - k := by
  intro l
  induction l with
  | nil => intro hl; exact absurd rfl hl
  | cons a t ih =>
    intro _
    cases t with
    | nil => rfl
    | cons b t2 =>
      show min (g a - k) (foldMin (fun i => g i - k) (b :: t2))
          = min (g a) (foldMin g (b :: t2)) - k
      rw [ih (by simp)]
      exact min_sub_sub_right _ _ _

theorem minAll_sub (D : Nat) (hD : 0 < D) (in1 in2 : Nat → Int) (k : Int)
    (hk : ∀ d, in1 d = in2 d - k) : minAll D in1 = minAll D in2 - k := by
  have h1 : in1 = fun d => in2 d - k := funext hk
  rw [minAll, h1, foldMin_sub in2 k (List.range D)
    (by rw [Ne, List.range_eq_nil]; omega)]
  rfl

theorem minPen_sub (lS lJ : Int) (D : Nat) (hD : 0 < D) (in1 in2 : Nat → Int)
    (k : Int) (hk : ∀ d, in1 d = in2 d - k) (d : Nat) :
    minPen lS lJ D in1 d = minPen lS lJ D in2 d - k := by
  have h1 : (fun dp => in1 dp + penalty lS lJ d dp)
      = fun dp => (in2 dp + penalty lS lJ d dp) - k := by
    funext dp
    rw [hk dp]
    ring
  rw [minPen, h1, foldMin_sub _ k (List.range D)
    (by rw [Ne, List.range_eq_nil]; omega)]
  rfl

/-- Each cell's tableau column computed with the floor subtraction is the
no-subtraction column shifted down by a per-cell constant. -/
theorem dpLine_sub_shift (lS lJ : Int) (D : Nat) (hD : 0 < D)
    (cost : Nat → Nat → Int) :
    ∀ i, ∃ k, ∀ d, dpLine lS lJ D cost i d = dpLineNoSub lS lJ D cost i d - k := by
  intro i
  induction i with
  | zero => exact ⟨0, fun d => by simp [dpLine, dpLineNoSub]⟩
  | succ i ih =>
    rcases ih with ⟨k, hk⟩
    refine ⟨minAll D (dpLineNoSub lS lJ D cost i), fun d => ?_⟩
    show computeDynamicStep lS lJ D (dpLine lS lJ D cost i) (cost (i + 1)) d
        = computeDynamicStepNoSub lS lJ D (dpLineNoSub lS lJ D cost i) (cost (i + 1)) d
          - minAll D (dpLineNoSub lS lJ D cost i)
    rw [computeDynamicStep, computeDynamicStepNoSub,
      minPen_sub lS lJ D hD _ _ k hk d, minAll_sub D hD _ _ k hk]
    ring

/-- Shifting all scores by a constant does not change the chosen index. -/
theorem argminList_sub (f : Nat → Int) (k : Int) :
    ∀ l : List Nat, argminList (fun d => f d - k) l = argminList f l := by
  intro l
  induction l with
  | nil => rfl
  | cons a t ih =>
    cases t with
    | nil => rfl
    | cons b t2 =>
      show (if f a - k ≤ f (argminList (fun d => f d - k) (b :: t2)) - k then a
            else argminList (fun d => f d - k) (b :: t2))
          = (if f a ≤ f (argminList f (b :: t2)) then a else argminList f (b :: t2))
      rw [ih]
      simp only [sub_le_sub_iff_right]

end Visgeom

/-- C8: subtracting the running minimum `floor(p)` in each DP step never
changes which disparity index minimizes the final combined score: for
every cost volume, penalties and cell, the disparity chosen from the four
subtracted tableaus equals the one chosen from the same recurrence without
the subtraction (identical tie-breaking by smallest index). -/
theorem c8_floor_subtraction_preserves_argmin (lS lJ : Int) (D h w : Nat)
    (hD : 0 < D) (cost : Nat → Nat → Nat → Int) (r c : Nat) :
    reconstructDisparity lS lJ D h w cost r c
      = reconstructDisparityNoSub lS lJ D h w cost r c := by
  rcases dpLine_sub_shift lS lJ D hD (fun i => cost r i) c with ⟨kL, hkL⟩
  rcases dpLine_sub_shift lS lJ D hD (fun i => cost r (w - 1 - i)) (w - 1 - c)
    with ⟨kR, hkR⟩
  rcases dpLine_sub_shift lS lJ D hD (fun i => cost i c) r with ⟨kT, hkT⟩
  rcases dpLine_sub_shift lS lJ D hD (fun i => cost (h - 1 - i) c) (h - 1 - r)
    with ⟨kB, hkB⟩
  have hfun : (fun d => aggScore lS lJ D h w cost r c d)
      = fun d => aggScoreNoSub lS lJ D h w cost r c d - (kL + kR + kT + kB) := by
    funext d
    rw [aggScore, aggScoreNoSub, tableauLeft, tableauRight, tableauTop,
      tableauBottom, hkL d, hkR d, hkT d, hkB d]
    ring
  rw [reconstructDisparity, reconstructDisparityNoSub, hfun, argminList_sub]

/-- Witness for C8 on a 1-by-2 grid with two disparities. -/
theorem c8_floor_subtraction_preserves_argmin_witness :
    (0 : Nat) < 2 ∧
    reconstructDisparity 1 2 2 1 2 (fun _ c d => ((c + d : Nat) : Int)) 0 1
      = reconstructDisparityNoSub 1 2 2 1 2 (fun _ c d => ((c + d : Nat) : Int)) 0 1 :=
  ⟨by decide,
   c8_floor_subtraction_preserves_argmin 1 2 2 1 2 (by decide)
     (fun _ c d => ((c + d : Nat) : Int)) 0 1⟩

namespace Visgeom

/-- A single-channel 8-bit image: integer dimensions and a pixel lookup
(the engine's inputs `img1`, `img2`). -/
structure Image where
  width : Int
  height : Int
  data : Int → Int → Nat

/-- Whether pixel `(u, v)` lies inside the image. -/
def inBounds (img : Image) (u v : Int) : Bool :=
  decide (0 ≤ u) && decide (u < img.width) &&
  decide (0 ≤ v) && decide (v < img.height)

/-- A bounds-checked pixel read: `none` would mean an out-of-bounds
access. -/
def safeRead (img : Image) (u v : Int) : Option Nat :=
  if inBounds img u v then some (img.data u v) else none

/-- Whether the whole block of half-width `hb` around `(u, v)` lies inside
the image. -/
def blockInBounds (img : Image) (u v : Int) (hb : Nat) : Bool :=
  decide (0 ≤ u - hb) && decide (u + hb < img.width) &&
  decide (0 ≤ v - hb) && decide (v + hb < img.height)

/-- The offsets `-hb .. hb` of a block of half-width `hb`. -/
def centeredRange (hb : Nat) : List Int :=
  (List.range (2 * hb + 1)).map (fun (i : Nat) => (i : Int) - (hb : Int))

/-- All `(du, dv)` offsets of a block of half-width `hb`. -/
def blockOffsets (hb : Nat) : List (Int × Int) :=
  (centeredRange hb).flatMap (fun dv => (centeredRange hb).map (fun du => (du, dv)))

/-- Sum of absolute intensity differences between the block of `img1` at
`(u1, v1)` and the block of `img2` at `(u2, v2)`, with every pixel access
bounds-checked: the result is `none` iff some access would be out of
bounds. -/
def sadBlock (img1 img2 : Image) (u1 v1 u2 v2 : Int) :
    List (Int × Int) → Option Nat
  | [] => some 0
  | o :: t => do
    let a ← safeRead img1 (u1 + o.1) (v1 + o.2)
    let b ← safeRead img2 (u2 + o.1) (v2 + o.2)
    let rest ← sadBlock img1 img2 u1 v1 u2 v2 t
    pure (((a : Int) - (b : Int)).natAbs + rest)

/-- The maximal-cost sentinel assigned to out-of-bounds samples: strictly
larger than any achievable block cost (`255` per pixel of the block). -/
def sentinelCost (hb : Nat) : Nat :=
  255 * (2 * hb + 1) * (2 * hb + 1) + 1

/-- Modelled from the spec: one entry of `computeCost` (body not among the
sources).  `(u1, v1)` is the cell's pixel in image 1 and `(u2, v2)` the
rasterized epipolar-curve sample in image 2 for one disparity hypothesis.
If the sample's block leaves image 2 the entry is the fixed maximal-cost
sentinel and no image-2 pixel is accessed; otherwise it is the block
photometric cost. -/
def computeCostEntry (img1 img2 : Image) (hb : Nat) (u1 v1 u2 v2 : Int) : Nat :=
  if blockInBounds img2 u2 v2 hb then
    (sadBlock img1 img2 u1 v1 u2 v2 (blockOffsets hb)).getD (sentinelCost hb)
  else sentinelCost hb

theorem centeredRange_bounds (hb : Nat) {x : Int} (hx : x ∈ centeredRange hb) :
    -(hb : Int) ≤ x ∧ x ≤ hb := by
  rw [centeredRange] at hx
  rcases List.mem_map.mp hx with ⟨i, hi, hEq⟩
  rw [List.mem_range] at hi
  subst hEq
  omega

theorem blockOffsets_bounds (hb : Nat) {o : Int × Int}
    (ho : o ∈ blockOffsets hb) :
    -(hb : Int) ≤ o.1 ∧ o.1 ≤ hb ∧ -(hb : Int) ≤ o.2 ∧ o.2 ≤ hb := by
  rcases List.mem_flatMap.mp ho with ⟨dv, hdv, hmem⟩
  rcases List.mem_map.mp hmem with ⟨du, hdu, rfl⟩
  have h1 := centeredRange_bounds hb hdu
  have h2 := centeredRange_bounds hb hdv
  exact ⟨h1.1, h1.2, h2.1, h2.2⟩

end Visgeom

/-- C3: for every cost-volume entry, if the rasterized epipolar-curve
sample `(u2, v2)` falls outside the bounds of image 2 then the entry is
the fixed maximal-cost sentinel; and whenever the guard passes, every
image-2 pixel touched by the block cost lies inside image 2, so no
out-of-bounds read of the image-2 buffer is ever performed. -/
theorem c3_out_of_bounds_sample_sentinel (img1 img2 : Image) (hb : Nat)
    (u1 v1 u2 v2 : Int) :
    (blockInBounds img2 u2 v2 hb = false →
      computeCostEntry img1 img2 hb u1 v1 u2 v2 = sentinelCost hb) ∧
    (blockInBounds img2 u2 v2 hb = true →
      ∀ o ∈ blockOffsets hb, inBounds img2 (u2 + o.1) (v2 + o.2) = true) := by
  constructor
  · intro hout
    rw [computeCostEntry, hout]
    simp
  · intro hin o ho
    have hob := blockOffsets_bounds hb ho
    simp only [blockInBounds, Bool.and_eq_true, decide_eq_true_eq] at hin
    simp only [inBounds, Bool.and_eq_true, decide_eq_true_eq]
    omega

/-- Witness for C3: a sample at `(99, 0)` lies outside a 12-by-1 image 2,
so the entry is the sentinel; and at the in-bounds sample `(3, 0)` every
block read stays inside. -/
theorem c3_out_of_bounds_sample_sentinel_witness :
    (blockInBounds ⟨12, 1, fun _ _ => 0⟩ 99 0 0 = false ∧
      computeCostEntry ⟨2, 2, fun _ _ => 0⟩ ⟨12, 1, fun _ _ => 0⟩ 0 0 0 99 0
        = sentinelCost 0) ∧
    (blockInBounds ⟨12, 1, fun _ _ => 0⟩ 3 0 0 = true ∧
      ∀ o ∈ blockOffsets 0,
        inBounds ⟨12, 1, fun _ _ => 0⟩ (3 + o.1) (0 + o.2) = true) :=
  ⟨⟨by decide,
    (c3_out_of_bounds_sample_sentinel ⟨2, 2, fun _ _ => 0⟩ ⟨12, 1, fun _ _ => 0⟩
      0 0 0 99 0).1 (by decide)⟩,
   ⟨by decide,
    (c3_out_of_bounds_sample_sentinel ⟨2, 2, fun _ _ => 0⟩ ⟨12, 1, fun _ _ => 0⟩
      0 0 0 3 0).2 (by decide)⟩⟩

namespace Visgeom

/-- The invalid-disparity sentinel of the 8-bit output image (spec
section 6: value 0 denotes invalid/unmatched). -/
def invalidDisparity : Nat := 0

/-- Modelled from the spec: one pixel of the full-resolution disparity
image produced by `EnhancedStereo::upsampleDisparity` (body not among the
sources).  A pixel inside the configured ROI and at least one block away
from every image border inherits the disparity chosen for its reduced-grid
cell through the block-size scaling transform; every other pixel is the
invalid sentinel. -/
def upsampleDisparity (p : StereoParameters) (small : Int → Int → Nat)
    (u v : Int) : Nat :=
  if p.u0 ≤ u ∧ u < p.uMax ∧ p.v0 ≤ v ∧ v < p.vMax ∧
     p.blockSize ≤ u ∧ u + p.blockSize < p.imageWidth ∧
     p.blockSize ≤ v ∧ v + p.blockSize < p.imageHeight then
    small (p.uSmall u) (p.vSmall v)
  else invalidDisparity

end Visgeom

/-- C4: in the full-resolution disparity image, every pixel outside the
configured ROI, or within less than one block of the image border, holds
the invalid sentinel — never an extrapolated disparity value. -/
theorem c4_upsample_border_sentinel (p : StereoParameters)
    (small : Int → Int → Nat) (u v : Int)
    (h : u < p.u0 ∨ p.uMax ≤ u ∨ v < p.v0 ∨ p.vMax ≤ v ∨
         u < p.blockSize ∨ p.imageWidth ≤ u + p.blockSize ∨
         v < p.blockSize ∨ p.imageHeight ≤ v + p.blockSize) :
    upsampleDisparity p small u v = invalidDisparity := by
  rw [upsampleDisparity, if_neg]
  intro hin
  rcases hin with ⟨h1, h2, h3, h4, h5, h6, h7, h8⟩
  rcases h with h0 | h0 | h0 | h0 | h0 | h0 | h0 | h0 <;> omega

/-- Witness for C4: with `badParams.init` (ROI `[4,9) x [2,6)` in a
100-by-80 image), the pixel `(1, 5)` is left of the ROI and less than one
block from the left border, and is the invalid sentinel regardless of the
small-grid content. -/
theorem c4_upsample_border_sentinel_witness :
    ((1 : Int) < badParams.init.u0 ∨ badParams.init.uMax ≤ 1 ∨
     (5 : Int) < badParams.init.v0 ∨ badParams.init.vMax ≤ 5 ∨
     (1 : Int) < badParams.init.blockSize ∨
     badParams.init.imageWidth ≤ 1 + badParams.init.blockSize ∨
     (5 : Int) < badParams.init.blockSize ∨
     badParams.init.imageHeight ≤ 5 + badParams.init.blockSize) ∧
    upsampleDisparity badParams.init (fun _ _ => 7) 1 5 = invalidDisparity :=
  ⟨by decide,
   c4_upsample_border_sentinel badParams.init (fun _ _ => 7) 1 5 (by decide)⟩

namespace Visgeom

/-- The epipole cache together with its validity flag: the projection of
the first camera's center onto the second camera, or flagged undefined. -/
structure EpipoleResult where
  defined : Bool
  u : Int
  v : Int
  deriving DecidableEq

/-- Modelled from the spec: the body of `EnhancedStereo::computeEpipole`
is not among the sources.  Per spec sections 4.1 and 7 it projects the
pose's translation `t21` through camera 2's model (an external collaborator
supplied as `project2`, which itself can fail); near-zero translation —
exact zero over the integer model — is the recognized degenerate case and
flags the epipole undefined instead of failing. -/
def computeEpipole (project2 : Int × Int × Int → Option (Int × Int))
    (tx ty tz : Int) : EpipoleResult :=
  if tx = 0 ∧ ty = 0 ∧ tz = 0 then ⟨false, 0, 0⟩
  else
    match project2 (tx, ty, tz) with
    | some pt => ⟨true, pt.1, pt.2⟩
    | none => ⟨false, 0, 0⟩

/-- Modelled from the spec: the disparity produced for a pose whose
epipole is flagged undefined is the invalid sentinel everywhere; with a
defined epipole the matched disparity is returned.  The engine always
returns a value (it continues rather than fail). -/
def disparityUnderEpipole (e : EpipoleResult) (disp : Int → Int → Nat)
    (u v : Int) : Nat :=
  if e.defined then disp u v else invalidDisparity

end Visgeom

/-- C7: under zero translation (pure rotation) `computeEpipole` flags the
epipole as undefined — for every camera projection `project2` — and the
engine continues, producing the invalid sentinel instead of a silently
wrong disparity at every pixel of that pose's output. -/
theorem c7_degenerate_epipole_flagged
    (project2 : Int × Int × Int → Option (Int × Int))
    (disp : Int → Int → Nat) (u v : Int) :
    (computeEpipole project2 0 0 0).defined = false ∧
    disparityUnderEpipole (computeEpipole project2 0 0 0) disp u v
      = invalidDisparity := by
  have he : computeEpipole project2 0 0 0 = ⟨false, 0, 0⟩ := by
    rw [computeEpipole, if_pos ⟨rfl, rfl, rfl⟩]
  rw [he]
  exact ⟨rfl, rfl⟩

namespace Visgeom

/-- Number of adjacent-cell disparity transitions greater than one step in
an `h`-by-`w` cell grid (horizontal plus vertical neighbor pairs). -/
def dispJumps (disp : Nat → Nat → Nat) (h w : Nat) : Nat :=
  ((List.range h).map (fun r => (List.range (w - 1)).countP
    (fun c => decide (1 < ((disp r (c + 1) : Int) - (disp r c : Int)).natAbs)))).sum +
  ((List.range w).map (fun c => (List.range (h - 1)).countP
    (fun r => decide (1 < ((disp (r + 1) c : Int) - (disp r c : Int)).natAbs)))).sum

/-- Jump count of the disparity map produced by the full aggregation and
winner extraction for a given cost volume. -/
def jumpCount (lS lJ : Int) (D h w : Nat) (cost : Nat → Nat → Nat → Int) : Nat :=
  dispJumps (reconstructDisparity lS lJ D h w cost) h w

/-- Pixel values of the concrete second image of the C9 counterexample. -/
def exData : List Nat := [4, 0, 9, 0, 0, 0, 8, 5, 2, 1, 4, 6]

/-- First input image of the C9 counterexample: 2 by 2, all black. -/
def exImg1 : Image := ⟨2, 2, fun _ _ => 0⟩

/-- Second input image of the C9 counterexample: 12 by 1. -/
def exImg2 : Image := ⟨12, 1, fun u _ => exData.getD u.toNat 0⟩

/-- The rasterized epipolar-curve sample of cell `(r, c)` at disparity
hypothesis `d` for the counterexample pose: a distinct image-2 column per
hypothesis (the curve rasterizer and camera model are external
collaborators; this is one conforming instance). -/
def exSample (r c d : Nat) : Int := ((r * 2 + c) * 3 + d : Nat)

/-- The cost volume the cost builder produces from the counterexample
images with block size 1: `cost r c d = |img1(c, r) - img2(sample, 0)|`. -/
def exCostVolume (r c d : Nat) : Int :=
  (computeCostEntry exImg1 exImg2 0 (c : Int) (r : Int) (exSample r c d) 0 : Nat)

end Visgeom

/-- C9 counterexample: with the concrete 2-by-2-cell image pair
`exImg1`/`exImg2` and pose (realized through the cost volume the cost
builder computes from them), step penalty 3 fixed, raising the jump
penalty from 3 to 6 increases the number of adjacent-cell disparity
transitions greater than one step in the output disparity map from 0
to 1 — the claimed monotonicity fails. -/
theorem c9_jump_monotonicity_counterexample :
    (3 : Int) < 6 ∧
    jumpCount 3 3 3 2 2 exCostVolume = 0 ∧
    jumpCount 3 6 3 2 2 exCostVolume = 1 := by
  decide

/-- The penalty of one transition decomposed into indicator terms for the
1-step and jump cases. -/
theorem penalty_decompose (lS lJ : Int) (a b : Nat) :
    penalty lS lJ a b =
      lS * (if ((a : Int) - b).natAbs = 1 then 1 else 0) +
      lJ * (if 1 < ((a : Int) - b).natAbs then 1 else 0) := by
  by_cases hab : b = a
  · subst hab
    have h0 : ((b : Int) - b).natAbs = 0 := by omega
    rw [penalty, if_pos rfl, h0]
    norm_num
  · by_cases hstep : b + 1 = a ∨ a + 1 = b
    · have h1 : ((a : Int) - b).natAbs = 1 := by omega
      rw [penalty, if_neg hab, if_pos hstep, h1]
      norm_num
    · have h2 : 1 < ((a : Int) - b).natAbs := by omega
      have h1 : ¬ ((a : Int) - b).natAbs = 1 := by omega
      rw [penalty, if_neg hab, if_neg hstep, if_neg h1, if_pos h2]
      ring

/-- The summed smoothness penalty along a scanline decomposes into
`lS * (number of 1-step transitions) + lJ * (number of jumps)`. -/
theorem penalty_sum_decompose (lS lJ : Int) (P : Nat → Nat) :
    ∀ l : List Nat,
      (l.map (fun i => penalty lS lJ (P (i + 1)) (P i))).sum =
        lS * ((l.countP (fun i =>
            decide (((P (i + 1) : Int) - (P i : Int)).natAbs = 1)) : Nat) : Int) +
        lJ * ((l.countP (fun i =>
            decide (1 < ((P (i + 1) : Int) - (P i : Int)).natAbs)) : Nat) : Int) := by
  intro l
  induction l with
  | nil => simp
  | cons a t ih =>
    rw [List.map_cons, List.sum_cons, ih, List.countP_cons, List.countP_cons,
      penalty_decompose]
    push_cast [apply_ite (fun n : Nat => (n : Int))]
    simp only [decide_eq_true_eq]
    ring

namespace Visgeom

/-- Total objective of a single-scanline disparity path `P` over `n`
cells: the data cost of each cell plus the smoothness penalty of each
consecutive transition (the objective the DP recurrence of section 4.3
minimizes along one line). -/
def pathCost (lS lJ : Int) (cost : Nat → Nat → Int) (n : Nat)
    (P : Nat → Nat) : Int :=
  ((List.range n).map (fun i => cost i (P i))).sum +
  ((List.range (n - 1)).map (fun i => penalty lS lJ (P (i + 1)) (P i))).sum

/-- Number of transitions greater than one step along a scanline path. -/
def pathJumps (P : Nat → Nat) (n : Nat) : Nat :=
  (List.range (n - 1)).countP
    (fun i => decide (1 < ((P (i + 1) : Int) - (P i : Int)).natAbs))

end Visgeom

/-- C9 amended: the jump count of the aggregated per-cell winner-take-all
output is not monotone in the jump penalty (see the counterexample); what
does hold is the exchange property for globally optimal scanline paths:
if `P` minimizes the scanline objective under jump penalty `lJ` and `P2`
minimizes it under a strictly larger jump penalty `lJ2` (same step
penalty and data costs), then `P2` has no more greater-than-one-step
transitions than `P`. -/
theorem c9_optimal_path_jumps_monotone (lS lJ lJ2 : Int)
    (cost : Nat → Nat → Int) (n : Nat) (P P2 : Nat → Nat) (hlt : lJ < lJ2)
    (hP : ∀ Q : Nat → Nat, pathCost lS lJ cost n P ≤ pathCost lS lJ cost n Q)
    (hP2 : ∀ Q : Nat → Nat, pathCost lS lJ2 cost n P2 ≤ pathCost lS lJ2 cost n Q) :
    pathJumps P2 n ≤ pathJumps P n := by
  have h1 := hP P2
  have h2 := hP2 P
  rw [pathCost, pathCost, penalty_sum_decompose, penalty_sum_decompose] at h1 h2
  rw [pathJumps, pathJumps]
  have key : (lJ2 - lJ) *
        ((List.range (n - 1)).countP (fun i =>
          decide (1 < ((P2 (i + 1) : Int) - (P2 i : Int)).natAbs)) : Int) ≤
      (lJ2 - lJ) *
        ((List.range (n - 1)).countP (fun i =>
          decide (1 < ((P (i + 1) : Int) - (P i : Int)).natAbs)) : Int) := by
    linarith
  have := le_of_mul_le_mul_left key (by linarith : (0 : Int) < lJ2 - lJ)
  exact_mod_cast this

/-- Witness for the amended C9: on an empty scanline every path is
optimal under every penalty, and the jump bound holds. -/
theorem c9_optimal_path_jumps_monotone_witness :
    (3 : Int) < 6 ∧ pathJumps (fun i => i) 0 ≤ pathJumps (fun i => i) 0 :=
  ⟨by decide,
   c9_optimal_path_jumps_monotone 3 3 6 (fun _ _ => 0) 0 (fun i => i) (fun i => i)
     (by decide) (fun Q => by simp [pathCost]) (fun Q => by simp [pathCost])⟩
